import Mathlib

/-!
# Verification of `module-tagger.py`

A shallow embedding of the AsciiDoc module tagger: the document model
(`AsciiDocFile` in the source, here `Doc`) and the review-session
controller (`AsciiDocTUI`, here `Session`), together with proofs of the
specified properties.

Text is modelled as `List Char`; a file's on-disk bytes are carried in
the `disk` field of its document (each document owns a distinct path and
all writes go through the owning document, so this is faithful).
Curses rendering, colors and transient messages are pure output and are
not part of the state model.
-/

set_option autoImplicit false

namespace ModuleTagger

/-- A single line of text, possibly ending in its line terminator. -/
abbrev Line := List Char

/-- ASCII whitespace, as stripped by Python `str.strip()` (we model the
ASCII subset of Python's whitespace class; the documents are ASCII). -/
def isSpace (c : Char) : Bool :=
  c == ' ' || c == '\t' || c == '\n' || c == '\r' || c == '\x0b' || c == '\x0c'

/-- Strip leading whitespace. -/
def stripLeft (s : List Char) : List Char :=
  s.dropWhile isSpace

/-- Strip trailing whitespace. -/
def stripRight (s : List Char) : List Char :=
  (s.reverse.dropWhile isSpace).reverse

/-- Python `str.strip()`: remove leading and trailing whitespace. -/
def strip (s : List Char) : List Char :=
  stripRight (stripLeft s)

/-- `hasPrefixCh hay needle` is true iff `needle` is a prefix of `hay`. -/
def hasPrefixCh : List Char → List Char → Bool
  | _, [] => true
  | [], _ :: _ => false
  | c :: hs, d :: ns => c == d && hasPrefixCh hs ns

/-- Python's substring test `needle in hay`. -/
def containsSub (hay needle : List Char) : Bool :=
  match hay with
  | [] => hasPrefixCh [] needle
  | c :: t => hasPrefixCh (c :: t) needle || containsSub t needle

/-- Python `str.splitlines(keepends=True)` restricted to the `\n`, `\r\n`
and `\r` line boundaries (the ones occurring in text files); each line
keeps its terminator, and a final unterminated fragment forms a line. -/
def splitKE (acc : List Char) : List Char → List (List Char)
  | [] => if acc.isEmpty then [] else [acc.reverse]
  | '\r' :: '\n' :: rest => (acc.reverse ++ ['\r', '\n']) :: splitKE [] rest
  | '\n' :: rest => (acc.reverse ++ ['\n']) :: splitKE [] rest
  | '\r' :: rest => (acc.reverse ++ ['\r']) :: splitKE [] rest
  | c :: rest => splitKE (c :: acc) rest

/-- `content.splitlines(keepends=True)`. -/
def splitlinesKeepends (s : List Char) : List (List Char) :=
  splitKE [] s

/-- Python `"".join(lines)`. -/
def joinLines (ls : List (List Char)) : List Char :=
  ls.foldr (· ++ ·) []

/-- Semantics of Python `re.match(r"^\[id=.*\]", s) is not None`:
the string starts with the literal `[id=`, and some later `]` is
reachable through `.*`, i.e. a `]` occurs after the prefix before any
newline (`.` does not match `\n`). -/
def reMatchIdAnchor (s : List Char) : Bool :=
  hasPrefixCh s idPre && ((s.drop 4).takeWhile (fun c => c != '\n')).contains ']'
where
  /-- The literal prefix `[id=` of the regex. -/
  idPre : List Char := "[id=".toList

/-- The content-type marker token searched for by `has_content_type`. -/
def markerChars : List Char := ":_mod-docs-content-type:".toList

/-- The inserted content-type marker line `:_mod-docs-content-type: <ct>\n`. -/
def contentTypeLine (ct : List Char) : Line :=
  markerChars ++ [' '] ++ ct ++ ['\n']

/-- The inserted review comment line `// TODO: needs-type-review\n`. -/
def reviewLine : Line := "// TODO: needs-type-review\n".toList

/-- The review token the spec names inside the comment line. -/
def reviewToken : List Char := "TODO: needs-type-review".toList

/-- The source's class `AsciiDocFile`: a path, the full text read at
construction time (`self.content`), the line list (`self.lines`), and —
for this model — the current on-disk bytes of the file at `path`. -/
structure Doc where
  path : String
  content : List Char
  lines : List Line
  disk : List Char
  deriving Repr, DecidableEq

/-- `AsciiDocFile.__init__`: read the file, cache the text, split into
lines keeping the line endings. -/
def load (path : String) (diskContent : List Char) : Doc :=
  { path := path
    content := diskContent
    lines := splitlinesKeepends diskContent
    disk := diskContent }

/-- `has_content_type`: the marker token occurs in the cached text. -/
def Doc.has_content_type (d : Doc) : Bool :=
  containsSub d.content markerChars

/-- The loop body's test `re.match(r"^\[id=.*\]", line.strip())`. -/
def anchorLine (l : Line) : Bool :=
  reMatchIdAnchor (strip l)

/-- The scanning loop of `find_first_heading_id`, carrying the index. -/
def findIdAux (i : Nat) : List Line → Option Nat
  | [] => none
  | l :: rest => if anchorLine l then some i else findIdAux (i + 1) rest

/-- `find_first_heading_id`: index of the first line whose stripped text
matches `^\[id=.*\]`, else `None`. -/
def Doc.find_first_heading_id (d : Doc) : Option Nat :=
  findIdAux 0 d.lines

/-- `add_content_type`: if an anchor exists, insert the marker line at the
anchor's index (Python `list.insert`, i.e. `take i ++ [x] ++ drop i`) and
rewrite the whole file; otherwise return `False` with no change. The
returned `Bool` is the method's return value. -/
def Doc.add_content_type (d : Doc) (ct : List Char) : Doc × Bool :=
  match d.find_first_heading_id with
  | none => (d, false)
  | some i =>
    let newLines := d.lines.take i ++ [contentTypeLine ct] ++ d.lines.drop i
    ({ d with lines := newLines, disk := joinLines newLines }, true)

/-- `add_review_marker`: same as `add_content_type` but inserting the fixed
review comment line. -/
def Doc.add_review_marker (d : Doc) : Doc × Bool :=
  match d.find_first_heading_id with
  | none => (d, false)
  | some i =>
    let newLines := d.lines.take i ++ [reviewLine] ++ d.lines.drop i
    ({ d with lines := newLines, disk := joinLines newLines }, true)

/-- The source's class `AsciiDocTUI`, restricted to the state the claims
are about: the candidate list, the cursor, the scroll offset and the
single undo slot `last_modification` (document index and the pre-edit
copy of its lines). -/
structure Session where
  files : List Doc
  current_index : Nat
  scroll_offset : Nat
  last_modification : Option (Nat × List Line)
  deriving Repr, DecidableEq

/-- `_find_asciidoc_files`: load every discovered file (the traversal and
its sorting are external) and keep those without a content-type marker. -/
def findAsciidocFiles (inputs : List (String × List Char)) : List Doc :=
  (inputs.map (fun pc => load pc.1 pc.2)).filter (fun d => !d.has_content_type)

/-- `AsciiDocTUI.__init__` on an already-traversed directory listing. -/
def Session.init (inputs : List (String × List Char)) : Session :=
  { files := findAsciidocFiles inputs
    current_index := 0
    scroll_offset := 0
    last_modification := none }

/-- `_next_file`: advance the cursor (guarded) and reset the scroll. -/
def Session.nextFile (s : Session) : Session :=
  if s.current_index < s.files.length then
    { s with current_index := s.current_index + 1, scroll_offset := 0 }
  else s

/-- `_prev_file`: retreat the cursor (guarded) and reset the scroll. -/
def Session.prevFile (s : Session) : Session :=
  if 0 < s.current_index then
    { s with current_index := s.current_index - 1, scroll_offset := 0 }
  else s

/-- `_add_type`: snapshot the focused document's lines into the undo slot
(unconditionally, before the attempt), run `add_content_type`, then
`_next_file`. `none` models the `IndexError` of `self.files[...]` on an
out-of-range cursor, which the main loop's guard prevents. -/
def Session.addType (s : Session) (ct : List Char) : Option Session :=
  match s.files[s.current_index]? with
  | none => none
  | some f =>
    let p := f.add_content_type ct
    Session.nextFile
      { s with
        files := s.files.set s.current_index p.1
        last_modification := some (s.current_index, f.lines) }

/-- `_mark_for_review`: same shape as `_add_type` with `add_review_marker`. -/
def Session.markForReview (s : Session) : Option Session :=
  match s.files[s.current_index]? with
  | none => none
  | some f =>
    let p := f.add_review_marker
    Session.nextFile
      { s with
        files := s.files.set s.current_index p.1
        last_modification := some (s.current_index, f.lines) }

/-- `_undo`: with an empty slot, only a transient notice (no state change);
otherwise restore the snapshot's lines onto the recorded document, rewrite
its file, clear the slot, focus that document and reset the scroll. -/
def Session.undo (s : Session) : Option Session :=
  match s.last_modification with
  | none => some s
  | some (idx, originalLines) =>
    match s.files[idx]? with
    | none => none
    | some f =>
      some { s with
        files := s.files.set idx
          { f with lines := originalLines, disk := joinLines originalLines }
        last_modification := none
        current_index := idx
        scroll_offset := 0 }

/-! ## The fixed tokens of the key handlers, claim-side predicates, and
concrete fixture documents and sessions used in witnesses and
counterexamples -/

/-- Category token passed by the `c`/`C` key handler. -/
def cCONCEPT : List Char := "CONCEPT".toList

/-- Category token passed by the `p`/`P` key handler. -/
def cPROCEDURE : List Char := "PROCEDURE".toList

/-- Category token passed by the `r`/`R` key handler. -/
def cREFERENCE : List Char := "REFERENCE".toList

/-- `hasSuffixCh hay suf` is true iff `suf` is a suffix of `hay`. -/
def hasSuffixCh (hay suf : List Char) : Bool :=
  hasPrefixCh hay.reverse suf.reverse

/-- The anchor shape exactly as the claim words it: starts with `[`,
continues with the literal `id=`, then any characters, and ENDS with `]`
(written here to compare against the code's actual pattern). -/
def claimAnchorShape (s : List Char) : Bool :=
  hasPrefixCh s "[id=".toList && hasSuffixCh (s.drop 4) "]".toList

/-- The anchor shape the code actually implements, in the amended claim's
words: starts with `[id=`, and after that prefix a `]` occurs before any
newline (the regex `^\[id=.*\]` is not anchored at the end). -/
def amendedAnchorPattern (s : List Char) : Bool :=
  hasPrefixCh s "[id=".toList
    && ((s.drop 4).takeWhile (fun c => c != '\n')).contains ']'

/-- Path of a fixture document with no anchor line. -/
def helloPath : String := "c.adoc"

/-- Content of the anchorless fixture document. -/
def helloContent : List Char := "hello\n".toList

/-- An anchorless fixture document. -/
def helloDoc : Doc := load helloPath helloContent

/-- A one-candidate session focused on the anchorless document. -/
def helloSession : Session :=
  { files := [helloDoc]
    current_index := 0
    scroll_offset := 0
    last_modification := none }

/-- Path of the fixture document whose only line matches the code's
anchor pattern but not the claim's end-anchored shape. -/
def tailPath : String := "t.adoc"

/-- Content `[id=x] tail` — an anchor for `re.match` though the stripped
line does not end with `]`. -/
def tailContent : List Char := "[id=x] tail\n".toList

/-- The fixture document for the non-end-anchored regex behaviour. -/
def tailDoc : Doc := load tailPath tailContent

/-- Path of a well-formed fixture document with one anchor line. -/
def anchoredPath : String := "b.adoc"

/-- Content with a title line, an anchor line at index 1 and a body. -/
def anchoredContent : List Char := "t\n[id=\"b\"]\nbody\n".toList

/-- A fixture document whose first anchor is at line index 1. -/
def anchoredDoc : Doc := load anchoredPath anchoredContent

/-- A second anchored fixture document at a distinct path. -/
def anchoredDoc2 : Doc := load "d.adoc" anchoredContent

/-- A one-candidate session focused on the anchored document. -/
def sessionB : Session :=
  { files := [anchoredDoc]
    current_index := 0
    scroll_offset := 0
    last_modification := none }

/-- A two-candidate session focused on the first anchored document. -/
def sessionBB : Session :=
  { files := [anchoredDoc, anchoredDoc2]
    current_index := 0
    scroll_offset := 0
    last_modification := none }

/-- Path of a fixture file that already carries the marker. -/
def markedPath : String := "a.adoc"

/-- Text before the marker occurrence in the marked fixture. -/
def markedPre : List Char := "junk ".toList

/-- Text after the marker occurrence in the marked fixture. -/
def markedPost : List Char := " CONCEPT\n".toList

/-- Content of the marked fixture: the marker token occurs mid-file. -/
def markedContent : List Char := markedPre ++ markerChars ++ markedPost

/-- A fixture document that already carries the content-type marker. -/
def markedDoc : Doc := load markedPath markedContent

/-- The AsciiDoc comment lead-in of the review line. -/
def commentPrefixChars : List Char := "// ".toList

/-! ## Helper lemmas about the text primitives -/

theorem hasPrefixCh_iff (h n : List Char) :
    hasPrefixCh h n = true ↔ ∃ t, h = n ++ t := by
  induction h, n using hasPrefixCh.induct with
  | case1 t => simp [hasPrefixCh]
  | case2 d ns => simp [hasPrefixCh]
  | case3 c hs d ns ih =>
    simp only [hasPrefixCh, Bool.and_eq_true, beq_iff_eq, ih, List.cons_append,
      List.cons.injEq]
    constructor
    · rintro ⟨rfl, t, rfl⟩; exact ⟨t, rfl, rfl⟩
    · rintro ⟨t, rfl, rfl⟩; exact ⟨rfl, t, rfl⟩

theorem containsSub_iff (h n : List Char) :
    containsSub h n = true ↔ ∃ p q, h = p ++ n ++ q := by
  induction h, n using containsSub.induct with
  | case1 needle =>
    simp only [containsSub, hasPrefixCh_iff]
    constructor
    · rintro ⟨t, ht⟩
      exact ⟨[], t, ht⟩
    · rintro ⟨p, q, hp⟩
      obtain ⟨rfl, rfl, rfl⟩ : p = [] ∧ needle = [] ∧ q = [] := by
        simpa using hp.symm
      exact ⟨[], rfl⟩
  | case2 needle c t ih =>
    simp only [containsSub, Bool.or_eq_true, hasPrefixCh_iff, ih]
    constructor
    · rintro (⟨q, hq⟩ | ⟨p, q, rfl⟩)
      · exact ⟨[], q, by simpa using hq⟩
      · exact ⟨c :: p, q, rfl⟩
    · rintro ⟨p, q, hpq⟩
      cases p with
      | nil => exact Or.inl ⟨q, by simpa using hpq⟩
      | cons x p' =>
        obtain ⟨rfl, rfl⟩ : c = x ∧ t = p' ++ needle ++ q := by
          simpa using hpq
        exact Or.inr ⟨p', q, rfl⟩

theorem joinLines_nil : joinLines [] = [] := rfl

theorem joinLines_cons (l : Line) (ls : List Line) :
    joinLines (l :: ls) = l ++ joinLines ls := rfl

theorem joinLines_append (ls₁ ls₂ : List Line) :
    joinLines (ls₁ ++ ls₂) = joinLines ls₁ ++ joinLines ls₂ := by
  induction ls₁ with
  | nil => rfl
  | cons l t ih => simp [joinLines_cons, ih]

/-- Rejoining the `splitlines(keepends=True)` decomposition restores the
text exactly (Python guarantees this; the model does too). -/
theorem joinLines_splitKE (acc s : List Char) :
    joinLines (splitKE acc s) = acc.reverse ++ s := by
  induction acc, s using splitKE.induct with
  | case1 acc hacc =>
    simp [splitKE, hacc, joinLines_nil, List.isEmpty_iff.mp hacc]
  | case2 acc hacc => simp [splitKE, hacc, joinLines]
  | case3 acc rest ih => simp [splitKE, joinLines_cons, ih]
  | case4 acc rest ih =>
    simp [splitKE, joinLines_cons, ih]
  | case5 acc rest hne ih =>
    rcases rest with _ | ⟨d, rest2⟩
    · simp [splitKE, joinLines_cons, joinLines_nil, ih]
    · have hd : d ≠ '\n' := fun h => hne rest2 (by rw [h])
      rw [splitKE.eq_def]
      simp only [joinLines_cons, ih, hd]
      simp
  | case6 acc c rest h1 h2 h3 ih =>
    rcases rest with _ | ⟨d, rest2⟩
    · rw [splitKE.eq_def]
      simp only [h2, h3]
      simpa using ih
    · rw [splitKE.eq_def]
      simp only [h2, h3]
      simpa using ih

theorem joinLines_splitlinesKeepends (s : List Char) :
    joinLines (splitlinesKeepends s) = s := by
  simpa using joinLines_splitKE [] s

/-- A freshly loaded document's cached disk bytes are the join of its
lines. -/
theorem load_disk_eq (p : String) (c : List Char) :
    (load p c).disk = joinLines ((load p c).lines) := by
  simp [load, joinLines_splitlinesKeepends]

/-! ## Helper lemmas about `findIdAux` -/

theorem findIdAux_shift (ls : List Line) (i : Nat) :
    findIdAux i ls = (findIdAux 0 ls).map (· + i) := by
  induction ls generalizing i with
  | nil => rfl
  | cons l t ih =>
    by_cases h : anchorLine l
    · simp [findIdAux, h]
    · rw [findIdAux, if_neg h, findIdAux, if_neg h, ih (i + 1), ih 1,
        Option.map_map]
      rcases findIdAux 0 t with _ | k
      · rfl
      · simp [Function.comp]; omega

theorem findIdAux_zero_some_iff (ls : List Line) (j : Nat) :
    findIdAux 0 ls = some j ↔
      (∃ l, ls[j]? = some l ∧ anchorLine l = true) ∧
      ∀ m, m < j → ∀ l, ls[m]? = some l → anchorLine l = false := by
  induction ls generalizing j with
  | nil => simp [findIdAux]
  | cons a t ih =>
    by_cases ha : anchorLine a
    · rw [findIdAux, if_pos ha]
      constructor
      · rintro h
        obtain rfl : j = 0 := by simpa using h.symm
        exact ⟨⟨a, by simp, ha⟩, fun m hm => absurd hm (Nat.not_lt_zero m)⟩
      · rintro ⟨-, hmin⟩
        cases j with
        | zero => rfl
        | succ k =>
          have hfalse := hmin 0 (Nat.succ_pos k) a (by simp)
          rw [ha] at hfalse
          exact Bool.noConfusion hfalse
    · rw [findIdAux, if_neg ha, findIdAux_shift]
      cases j with
      | zero =>
        constructor
        · intro h
          rcases hft : findIdAux 0 t with _ | k <;> rw [hft] at h <;> simp at h
        · rintro ⟨⟨l, hl, hal⟩, -⟩
          obtain rfl : a = l := by simpa using hl
          exact absurd hal ha
      | succ k =>
        have hmap : (findIdAux 0 t).map (· + (0 + 1)) = some (k + 1) ↔
            findIdAux 0 t = some k := by
          rcases findIdAux 0 t with _ | m <;> simp
        rw [hmap, ih k]
        constructor
        · rintro ⟨⟨l, hl, hal⟩, hmin⟩
          refine ⟨⟨l, by simpa using hl, hal⟩, ?_⟩
          rintro (_ | m) hm l' hl'
          · obtain rfl : a = l' := by simpa using hl'
            exact Bool.eq_false_iff.mpr ha
          · exact hmin m (by omega) l' (by simpa using hl')
        · rintro ⟨⟨l, hl, hal⟩, hmin⟩
          refine ⟨⟨l, by simpa using hl, hal⟩, ?_⟩
          intro m hm l' hl'
          exact hmin (m + 1) (by omega) l' (by simpa using hl')

theorem findIdAux_zero_none_iff (ls : List Line) :
    findIdAux 0 ls = none ↔ ∀ l ∈ ls, anchorLine l = false := by
  induction ls with
  | nil => simp [findIdAux]
  | cons a t ih =>
    by_cases ha : anchorLine a
    · simp [findIdAux, ha]
    · rw [findIdAux, if_neg ha, findIdAux_shift]
      rcases h : findIdAux 0 t with _ | k
      · simpa [Bool.eq_false_iff.mpr ha] using ih.mp h
      · simp only [Option.map_some, List.mem_cons]
        constructor
        · intro hc; cases hc
        · intro hall
          have := ih.mpr (fun l hl => hall l (Or.inr hl))
          rw [h] at this; cases this

/-- The index returned by `findIdAux 0` is in range. -/
theorem findIdAux_zero_some_lt (ls : List Line) (j : Nat)
    (h : findIdAux 0 ls = some j) : j < ls.length := by
  obtain ⟨⟨l, hl, -⟩, -⟩ := (findIdAux_zero_some_iff ls j).mp h
  by_contra hge
  rw [List.getElem?_eq_none (by omega)] at hl
  cases hl

/-! ## Helper lemmas about `List.set` and stripping -/

theorem set_of_getElem? {α : Type} (l : List α) (n : Nat) (a : α)
    (h : l[n]? = some a) : l.set n a = l := by
  induction l generalizing n with
  | nil => simp at h
  | cons x t ih =>
    cases n with
    | zero =>
      obtain rfl : x = a := by simpa using h
      simp
    | succ m =>
      simpa using ih m (by simpa using h)

theorem stripRight_cons_not_space (c : Char) (r : List Char)
    (hc : isSpace c = false) : ∃ r', stripRight (c :: r) = c :: r' := by
  have hrev : (c :: r).reverse = r.reverse ++ [c] := by simp
  rw [stripRight, hrev, List.dropWhile_append]
  by_cases h : (r.reverse.dropWhile isSpace).isEmpty
  · refine ⟨[], ?_⟩
    simp [h, List.dropWhile_cons, hc]
  · obtain ⟨x, xs, hx⟩ : ∃ x xs, r.reverse.dropWhile isSpace = x :: xs := by
      rcases he : r.reverse.dropWhile isSpace with _ | ⟨x, xs⟩
      · rw [he] at h; simp at h
      · exact ⟨x, xs, rfl⟩
    refine ⟨(x :: xs).reverse, ?_⟩
    rw [if_neg h, hx, List.reverse_append]
    simp

theorem strip_cons_not_space (c : Char) (r : List Char)
    (hc : isSpace c = false) : ∃ r', strip (c :: r) = c :: r' := by
  rw [strip, stripLeft, List.dropWhile_cons, if_neg (by simp [hc])]
  exact stripRight_cons_not_space c r hc

theorem reMatchIdAnchor_head_ne (c : Char) (r : List Char)
    (h : (c == '[') = false) : reMatchIdAnchor (c :: r) = false := by
  have hpre : reMatchIdAnchor.idPre = '[' :: "id=".toList := rfl
  rw [reMatchIdAnchor, hpre]
  simp [hasPrefixCh, h]

/-- The inserted content-type marker line is never itself an anchor. -/
theorem anchorLine_contentTypeLine (ct : List Char) :
    anchorLine (contentTypeLine ct) = false := by
  have hm : markerChars = ':' :: "_mod-docs-content-type:".toList := by decide
  have hshape : contentTypeLine ct
      = ':' :: ("_mod-docs-content-type:".toList ++ [' '] ++ ct ++ ['\n']) := by
    rw [contentTypeLine, hm]; simp
  obtain ⟨r', hr'⟩ := strip_cons_not_space ':'
    ("_mod-docs-content-type:".toList ++ [' '] ++ ct ++ ['\n']) (by decide)
  rw [anchorLine, hshape, hr']
  exact reMatchIdAnchor_head_ne _ _ (by decide)

/-- The inserted review comment line is never itself an anchor. -/
theorem anchorLine_reviewLine : anchorLine reviewLine = false := by decide

/-! ## Helper lemmas about inserting a line into the middle of a list -/

theorem length_insertMid {α : Type} (ls : List α) (m : α) (i : Nat) :
    (ls.take i ++ [m] ++ ls.drop i).length = ls.length + 1 := by
  simp; omega

theorem getElem?_insertMid_lt {α : Type} (ls : List α) (m : α) (i j : Nat)
    (hj : j < i) (hi : i ≤ ls.length) :
    (ls.take i ++ [m] ++ ls.drop i)[j]? = ls[j]? := by
  have h1 : (ls.take i).length = i := by simp; omega
  rw [List.getElem?_append_left (by simp [h1]; omega),
    List.getElem?_append_left (by omega), List.getElem?_take]
  simp [hj]

theorem getElem?_insertMid_self {α : Type} (ls : List α) (m : α) (i : Nat)
    (hi : i ≤ ls.length) :
    (ls.take i ++ [m] ++ ls.drop i)[i]? = some m := by
  have h1 : (ls.take i).length = i := by simp; omega
  rw [List.getElem?_append_left
      (by simp only [List.length_append, List.length_cons, List.length_nil, h1]; omega),
    List.getElem?_append_right (by omega), h1]
  simp

theorem getElem?_insertMid_ge {α : Type} (ls : List α) (m : α) (i j : Nat)
    (hj : i ≤ j) (hi : i ≤ ls.length) :
    (ls.take i ++ [m] ++ ls.drop i)[j + 1]? = ls[j]? := by
  have h1 : (ls.take i ++ [m]).length = i + 1 := by simp; omega
  rw [List.getElem?_append_right (by simp [h1]; omega), h1,
    List.getElem?_drop]
  congr 1
  omega

/-- Inserting a non-anchor line at the first anchor's index pushes the
first anchor to the next index. -/
theorem findIdAux_zero_insert (ls : List Line) (m : Line) (i : Nat)
    (hfind : findIdAux 0 ls = some i) (hm : anchorLine m = false) :
    findIdAux 0 (ls.take i ++ [m] ++ ls.drop i) = some (i + 1) := by
  obtain ⟨⟨l, hl, hal⟩, hmin⟩ := (findIdAux_zero_some_iff ls i).mp hfind
  have hlt : i < ls.length := findIdAux_zero_some_lt ls i hfind
  apply (findIdAux_zero_some_iff _ _).mpr
  refine ⟨⟨l, ?_, hal⟩, ?_⟩
  · rw [getElem?_insertMid_ge ls m i i (Nat.le_refl i) (by omega)]
    exact hl
  · intro k hk l' hl'
    rcases Nat.lt_or_ge k i with hki | hki
    · rw [getElem?_insertMid_lt ls m i k hki (by omega)] at hl'
      exact hmin k hki l' hl'
    · rw [(by omega : k = i)] at hl'
      rw [getElem?_insertMid_self ls m i (by omega)] at hl'
      obtain rfl : m = l' := by simpa using hl'
      exact hm

/-! ## Unfolding lemmas for the document operations -/

theorem add_content_type_of_none (d : Doc) (ct : List Char)
    (h : d.find_first_heading_id = none) :
    d.add_content_type ct = (d, false) := by
  simp [Doc.add_content_type, h]

theorem add_review_marker_of_none (d : Doc)
    (h : d.find_first_heading_id = none) :
    d.add_review_marker = (d, false) := by
  simp [Doc.add_review_marker, h]

theorem add_content_type_of_some (d : Doc) (ct : List Char) (i : Nat)
    (h : d.find_first_heading_id = some i) :
    d.add_content_type ct =
      ({ d with
          lines := d.lines.take i ++ [contentTypeLine ct] ++ d.lines.drop i
          disk := joinLines (d.lines.take i ++ [contentTypeLine ct] ++ d.lines.drop i) },
        true) := by
  simp [Doc.add_content_type, h]

theorem add_review_marker_of_some (d : Doc) (i : Nat)
    (h : d.find_first_heading_id = some i) :
    d.add_review_marker =
      ({ d with
          lines := d.lines.take i ++ [reviewLine] ++ d.lines.drop i
          disk := joinLines (d.lines.take i ++ [reviewLine] ++ d.lines.drop i) },
        true) := by
  simp [Doc.add_review_marker, h]

/-! ## Unfolding lemmas for the session operations -/

theorem nextFile_of_lt (s : Session) (h : s.current_index < s.files.length) :
    s.nextFile = { s with current_index := s.current_index + 1, scroll_offset := 0 } := by
  simp [Session.nextFile, h]

theorem nextFile_of_ge (s : Session) (h : ¬ s.current_index < s.files.length) :
    s.nextFile = s := by
  simp [Session.nextFile, h]

theorem prevFile_of_pos (s : Session) (h : 0 < s.current_index) :
    s.prevFile = { s with current_index := s.current_index - 1, scroll_offset := 0 } := by
  simp [Session.prevFile, h]

theorem prevFile_of_zero (s : Session) (h : s.current_index = 0) :
    s.prevFile = s := by
  simp [Session.prevFile, h]

theorem addType_eq (s : Session) (ct : List Char) (f : Doc)
    (hf : s.files[s.current_index]? = some f) :
    s.addType ct = some (Session.nextFile
      { s with
          files := s.files.set s.current_index (f.add_content_type ct).1
          last_modification := some (s.current_index, f.lines) }) := by
  simp [Session.addType, hf]

theorem markForReview_eq (s : Session) (f : Doc)
    (hf : s.files[s.current_index]? = some f) :
    s.markForReview = some (Session.nextFile
      { s with
          files := s.files.set s.current_index f.add_review_marker.1
          last_modification := some (s.current_index, f.lines) }) := by
  simp [Session.markForReview, hf]

theorem undo_of_none (s : Session) (h : s.last_modification = none) :
    s.undo = some s := by
  simp [Session.undo, h]

theorem undo_of_some (s : Session) (idx : Nat) (orig : List Line) (f : Doc)
    (hslot : s.last_modification = some (idx, orig))
    (hf : s.files[idx]? = some f) :
    s.undo = some { s with
      files := s.files.set idx { f with lines := orig, disk := joinLines orig }
      last_modification := none
      current_index := idx
      scroll_offset := 0 } := by
  simp [Session.undo, hslot, hf]

theorem find_first_heading_id_def (d : Doc) :
    d.find_first_heading_id = findIdAux 0 d.lines := rfl

theorem lt_of_getElem?_eq_some {α : Type} {l : List α} {n : Nat} {a : α}
    (h : l[n]? = some a) : n < l.length := by
  by_contra hge
  rw [List.getElem?_eq_none (by omega)] at h
  cases h

/-- Joining an insert-in-the-middle line list exposes the inserted line
between the joins of the two halves. -/
theorem joinLines_insertMid (A : List Line) (m : Line) (i : Nat) :
    joinLines (A.take i ++ [m] ++ A.drop i)
      = joinLines (A.take i) ++ m ++ joinLines (A.drop i) := by
  rw [joinLines_append, joinLines_append]
  simp [joinLines_cons, joinLines_nil]

/-- Inserting a copy of `m` anywhere into `A` raises the count of `m` by
exactly one. -/
theorem count_insertMid {α : Type} [BEq α] [LawfulBEq α]
    (A : List α) (m : α) (i : Nat) :
    (A.take i ++ [m] ++ A.drop i).count m = A.count m + 1 := by
  rw [List.count_append, List.count_append]
  have hm : List.count m [m] = 1 := by
    simp [List.count_cons]
  have hAd : A.count m = (A.take i).count m + (A.drop i).count m := by
    rw [← List.count_append, List.take_append_drop]
  omega

/-! # The claims -/

/-- C6: on a document with no anchor line, both insertion operations
return failure and leave the whole document record — lines and on-disk
bytes included — unchanged (no disk write happens). -/
theorem C6_no_anchor_no_op (d : Doc) (ct : List Char)
    (h : d.find_first_heading_id = none) :
    d.add_content_type ct = (d, false) ∧ d.add_review_marker = (d, false) :=
  ⟨add_content_type_of_none d ct h, add_review_marker_of_none d h⟩

/-- Witness for C6: the anchorless fixture fails both insertions. -/
theorem C6_witness :
    helloDoc.add_content_type cCONCEPT = (helloDoc, false) ∧
    helloDoc.add_review_marker = (helloDoc, false) :=
  C6_no_anchor_no_op helloDoc cCONCEPT (by decide)

/-- C2 is refuted: the code pattern `^\[id=.*\]` is not end-anchored, so
the stripped line `[id=x] tail` — which does not end in `]` — is still
taken as an anchor: `find_first_heading_id` returns index 0 on a document
whose every line fails the claim's shape, where the claim requires
`None`. -/
theorem C2_counterexample :
    tailDoc.find_first_heading_id = some 0 ∧
    ∀ l ∈ tailDoc.lines, claimAnchorShape (strip l) = false := by
  constructor
  · decide
  · decide

/-- C2 (amended): `find_first_heading_id` returns the index of the first
line whose stripped text starts with `[id=` and, after that prefix,
contains a `]` before any newline (it need not END with `]`); it returns
`none` exactly when no line has that shape. -/
theorem C2_first_anchor_characterization (d : Doc) (j : Nat) :
    (d.find_first_heading_id = some j ↔
      (∃ l, d.lines[j]? = some l ∧ amendedAnchorPattern (strip l) = true) ∧
      ∀ m, m < j → ∀ l, d.lines[m]? = some l →
        amendedAnchorPattern (strip l) = false) ∧
    (d.find_first_heading_id = none ↔
      ∀ l ∈ d.lines, amendedAnchorPattern (strip l) = false) := by
  have he : ∀ l : Line, amendedAnchorPattern (strip l) = anchorLine l :=
    fun l => rfl
  constructor
  · rw [find_first_heading_id_def]
    simpa [he] using findIdAux_zero_some_iff d.lines j
  · rw [find_first_heading_id_def]
    simpa [he] using findIdAux_zero_none_iff d.lines

/-- Witness for the amended C2, applying the `none` direction at the
anchorless fixture. -/
theorem C2_witness : helloDoc.find_first_heading_id = none :=
  (C2_first_anchor_characterization helloDoc 0).2.mpr (by decide)

/-- C4: on a document whose first anchor is at index `i`, a successful
`add_content_type` with one of the three category tokens inserts exactly
the marker line at index `i` (immediately before the anchor, which moves
to `i + 1`), preserves every pre-existing line in order, and writes the
joined new sequence to disk; `add_review_marker` inserts the review
comment line — which contains the literal review token — at the same
position. -/
theorem C4_insertion_placement (d : Doc) (ct : List Char) (i : Nat)
    (hct : ct = cCONCEPT ∨ ct = cPROCEDURE ∨ ct = cREFERENCE)
    (hfind : d.find_first_heading_id = some i) :
    (∃ l', d.add_content_type ct
        = ({ d with lines := l', disk := joinLines l' }, true) ∧
      l'[i]? = some (contentTypeLine ct) ∧
      (∃ a, d.lines[i]? = some a ∧ anchorLine a = true ∧ l'[i + 1]? = some a) ∧
      (∀ j, j < i → l'[j]? = d.lines[j]?) ∧
      (∀ j, i ≤ j → l'[j + 1]? = d.lines[j]?) ∧
      l'.length = d.lines.length + 1) ∧
    (∃ l', d.add_review_marker
        = ({ d with lines := l', disk := joinLines l' }, true) ∧
      l'[i]? = some reviewLine ∧
      (∀ j, j < i → l'[j]? = d.lines[j]?) ∧
      (∀ j, i ≤ j → l'[j + 1]? = d.lines[j]?) ∧
      l'.length = d.lines.length + 1) ∧
    containsSub reviewLine reviewToken = true := by
  have hfa : findIdAux 0 d.lines = some i := hfind
  have hlt : i < d.lines.length := findIdAux_zero_some_lt _ _ hfa
  have hle : i ≤ d.lines.length := Nat.le_of_lt hlt
  obtain ⟨⟨a, ha, haa⟩, -⟩ := (findIdAux_zero_some_iff d.lines i).mp hfa
  refine ⟨⟨_, add_content_type_of_some d ct i hfind,
      getElem?_insertMid_self _ _ _ hle,
      ⟨a, ha, haa, by rw [getElem?_insertMid_ge _ _ _ _ (Nat.le_refl i) hle]; exact ha⟩,
      fun j hj => getElem?_insertMid_lt _ _ _ _ hj hle,
      fun j hj => getElem?_insertMid_ge _ _ _ _ hj hle,
      length_insertMid _ _ _⟩,
    ⟨_, add_review_marker_of_some d i hfind,
      getElem?_insertMid_self _ _ _ hle,
      fun j hj => getElem?_insertMid_lt _ _ _ _ hj hle,
      fun j hj => getElem?_insertMid_ge _ _ _ _ hj hle,
      length_insertMid _ _ _⟩,
    by decide⟩

/-- Witness for C4 at the anchored fixture. -/
theorem C4_witness :
    ∃ l', anchoredDoc.add_content_type cCONCEPT
        = ({ anchoredDoc with lines := l', disk := joinLines l' }, true) ∧
      l'[1]? = some (contentTypeLine cCONCEPT) := by
  obtain ⟨⟨l', h1, h2, -⟩, -⟩ :=
    C4_insertion_placement anchoredDoc cCONCEPT 1 (Or.inl rfl) (by decide)
  exact ⟨l', h1, h2⟩

/-- C8: `has_content_type` holds exactly when the cached text contains the
literal marker token as a substring, and every file whose content contains
the token anywhere is excluded from the startup candidate list. -/
theorem C8_marker_detection (d : Doc) (inputs : List (String × List Char)) :
    (d.has_content_type = true ↔ ∃ p q, d.content = p ++ markerChars ++ q) ∧
    (d ∈ findAsciidocFiles inputs → d.has_content_type = false) ∧
    ((∃ p q, d.content = p ++ markerChars ++ q) → d ∉ findAsciidocFiles inputs) := by
  have h1 : d.has_content_type = true ↔ ∃ p q, d.content = p ++ markerChars ++ q :=
    containsSub_iff d.content markerChars
  refine ⟨h1, ?_, ?_⟩
  · intro hmem
    have h2 := (List.mem_filter.mp hmem).2
    simpa using h2
  · rintro hx hmem
    have h2 := (List.mem_filter.mp hmem).2
    rw [Bool.not_eq_true', h1.mpr hx] at h2
    cases h2

/-- Witness for C8: the marked fixture is excluded from candidates when
its own directory listing is scanned. -/
theorem C8_witness : markedDoc ∉ findAsciidocFiles [(markedPath, markedContent)] :=
  (C8_marker_detection markedDoc [(markedPath, markedContent)]).2.2
    ⟨markedPre, markedPost, rfl⟩

/-- C10: the cached `content` consulted by `has_content_type` is set at
load time and never updated by either insertion; after a successful
insertion `has_content_type` still returns its load-time answer, even
though the line sequence and the on-disk bytes now contain the inserted
marker (respectively, review comment) line. -/
theorem C10_cached_content_frame (d : Doc) (ct : List Char) (i : Nat)
    (hfind : d.find_first_heading_id = some i) :
    ((d.add_content_type ct).1.content = d.content ∧
     (d.add_content_type ct).1.has_content_type = d.has_content_type) ∧
    (d.add_review_marker.1.content = d.content ∧
     d.add_review_marker.1.has_content_type = d.has_content_type) ∧
    (d.has_content_type = false →
      (d.add_content_type ct).1.has_content_type = false ∧
      containsSub (joinLines ((d.add_content_type ct).1.lines)) markerChars = true ∧
      containsSub ((d.add_content_type ct).1.disk) markerChars = true) ∧
    containsSub (d.add_review_marker.1.disk) reviewToken = true := by
  have hA := congrArg Prod.fst (add_content_type_of_some d ct i hfind)
  have hR := congrArg Prod.fst (add_review_marker_of_some d i hfind)
  rw [hA, hR]
  have hctdec : joinLines (d.lines.take i ++ [contentTypeLine ct] ++ d.lines.drop i)
      = joinLines (d.lines.take i)
        ++ markerChars ++ (([' '] ++ ct ++ ['\n']) ++ joinLines (d.lines.drop i)) := by
    rw [joinLines_insertMid, contentTypeLine]
    simp [List.append_assoc]
  have hrldec : joinLines (d.lines.take i ++ [reviewLine] ++ d.lines.drop i)
      = (joinLines (d.lines.take i) ++ commentPrefixChars)
        ++ reviewToken ++ (['\n'] ++ joinLines (d.lines.drop i)) := by
    rw [joinLines_insertMid,
      (by decide : reviewLine = commentPrefixChars ++ reviewToken ++ ['\n'])]
    simp [List.append_assoc]
  refine ⟨⟨rfl, rfl⟩, ⟨rfl, rfl⟩, ?_, ?_⟩
  · intro hfalse
    refine ⟨hfalse, ?_, ?_⟩
    · exact (containsSub_iff _ _).mpr ⟨_, _, hctdec⟩
    · exact (containsSub_iff _ _).mpr ⟨_, _, hctdec⟩
  · exact (containsSub_iff _ _).mpr ⟨_, _, hrldec⟩

/-- Witness for C10: tagging the anchored fixture leaves its cached
answer false although the rewritten disk bytes contain the marker. -/
theorem C10_witness :
    (anchoredDoc.add_content_type cCONCEPT).1.has_content_type = false ∧
    containsSub ((anchoredDoc.add_content_type cCONCEPT).1.disk) markerChars = true := by
  obtain ⟨-, -, h3, -⟩ := C10_cached_content_frame anchoredDoc cCONCEPT 1 (by decide)
  obtain ⟨a, -, c⟩ := h3 (by decide)
  exact ⟨a, c⟩

/-- C7: a tag or flag command on a focused document advances the cursor by
exactly 1 and resets the scroll, whether or not the underlying insertion
succeeds; advance caps at `len(files)` and is a no-op there, retreat never
increases the cursor and is a no-op at 0 (the cursor stays in
`[0, len(files)]`). -/
theorem C7_cursor_advancement (s : Session) (ct : List Char) :
    (s.current_index < s.files.length →
      (s.addType ct).map (fun t => t.current_index) = some (s.current_index + 1) ∧
      (s.addType ct).map (fun t => t.scroll_offset) = some 0 ∧
      s.markForReview.map (fun t => t.current_index) = some (s.current_index + 1) ∧
      s.markForReview.map (fun t => t.scroll_offset) = some 0) ∧
    (s.current_index ≤ s.files.length → s.nextFile.current_index ≤ s.files.length) ∧
    s.prevFile.current_index ≤ s.current_index ∧
    (s.current_index = s.files.length → s.nextFile = s) ∧
    (s.current_index = 0 → s.prevFile = s) := by
  refine ⟨?_, ?_, ?_, ?_, ?_⟩
  · intro h
    obtain ⟨f, hf⟩ : ∃ f, s.files[s.current_index]? = some f :=
      ⟨s.files[s.current_index], List.getElem?_eq_getElem h⟩
    rw [addType_eq s ct f hf, markForReview_eq s f hf,
      nextFile_of_lt _ (by simpa using h), nextFile_of_lt _ (by simpa using h)]
    simp
  · intro h
    by_cases hlt : s.current_index < s.files.length
    · rw [nextFile_of_lt s hlt]
      simpa using hlt
    · rw [nextFile_of_ge s hlt]
      exact h
  · by_cases hpos : 0 < s.current_index
    · rw [prevFile_of_pos s hpos]
      simp
    · rw [prevFile_of_zero s (by omega)]
  · intro h
    exact nextFile_of_ge s (by omega)
  · exact prevFile_of_zero s

/-- Witness for C7 at the one-candidate session. -/
theorem C7_witness :
    (sessionB.addType cCONCEPT).map (fun t => t.current_index) = some 1 ∧
    sessionB.markForReview.map (fun t => t.scroll_offset) = some 0 := by
  obtain ⟨h1, -⟩ := C7_cursor_advancement sessionB cCONCEPT
  obtain ⟨a, -, -, d2⟩ := h1 (by decide)
  exact ⟨a, d2⟩

/-- C1 is refuted: `_add_type` sets `last_modification` BEFORE the
insertion attempt, so a failed insertion (anchorless focused document)
still overwrites the undo slot — here from `none` to a recorded snapshot —
and the following undo is not a mere transient notice: it changes state,
moving the cursor from 1 back to 0. -/
theorem C1_counterexample :
    helloDoc.find_first_heading_id = none ∧
    helloSession.last_modification = none ∧
    (helloSession.addType cCONCEPT).map (fun t => t.last_modification)
      = some (some (0, helloDoc.lines)) ∧
    (helloSession.addType cCONCEPT).map (fun t => t.current_index) = some 1 ∧
    ((helloSession.addType cCONCEPT).bind Session.undo).map (fun t => t.current_index)
      = some 0 := by
  refine ⟨by decide, rfl, by decide, by decide, by decide⟩

/-- C1 (amended): when the focused document's insertion fails because it
has no anchor, the document (memory and disk) is unchanged, but the undo
slot is nevertheless overwritten with a snapshot of its unchanged lines;
an undo issued then is not a no-op: it rewrites the document with those
identical lines, clears the slot, resets the scroll and moves the cursor
back to that document. Only an undo with an EMPTY slot is a pure no-op
with a transient notice. -/
theorem C1_failed_insert_overwrites_slot (s : Session) (f : Doc) (ct : List Char)
    (hf : s.files[s.current_index]? = some f)
    (hanchor : f.find_first_heading_id = none) :
    (∃ s1, s.addType ct = some s1 ∧
      s1.files = s.files ∧
      s1.last_modification = some (s.current_index, f.lines) ∧
      s1.current_index = s.current_index + 1 ∧
      ∃ s2, s1.undo = some s2 ∧
        s2.current_index = s.current_index ∧
        s2.last_modification = none ∧
        s2.scroll_offset = 0 ∧
        (s2.files[s.current_index]?).map (fun d2 => d2.lines) = some f.lines) ∧
    (∃ s1, s.markForReview = some s1 ∧
      s1.files = s.files ∧
      s1.last_modification = some (s.current_index, f.lines)) ∧
    (∀ t : Session, t.last_modification = none → t.undo = some t) := by
  have hlt := lt_of_getElem?_eq_some hf
  have hadd1 : (f.add_content_type ct).1 = f := by
    rw [add_content_type_of_none f ct hanchor]
  have hrev1 : f.add_review_marker.1 = f := by
    rw [add_review_marker_of_none f hanchor]
  have hset : s.files.set s.current_index f = s.files := set_of_getElem? _ _ _ hf
  refine ⟨?_, ?_, fun t ht => undo_of_none t ht⟩
  · rw [addType_eq s ct f hf, hadd1, hset, nextFile_of_lt _ (by simpa using hlt)]
    refine ⟨_, rfl, rfl, rfl, rfl, ?_⟩
    rw [undo_of_some _ s.current_index f.lines f rfl (by simpa using hf)]
    refine ⟨_, rfl, rfl, rfl, rfl, ?_⟩
    show ((s.files.set s.current_index
        { f with lines := f.lines, disk := joinLines f.lines })[s.current_index]?).map
        (fun d2 => d2.lines) = some f.lines
    rw [List.getElem?_set_self (by simpa using hlt)]
    rfl
  · rw [markForReview_eq s f hf, hrev1, hset, nextFile_of_lt _ (by simpa using hlt)]
    exact ⟨_, rfl, rfl, rfl⟩

/-- Witness for the amended C1 at the anchorless one-candidate session. -/
theorem C1_witness :
    ∃ s1, helloSession.addType cCONCEPT = some s1 ∧
      s1.last_modification = some (0, helloDoc.lines) := by
  obtain ⟨⟨s1, h1, -, h3, -⟩, -, -⟩ :=
    C1_failed_insert_overwrites_slot helloSession helloDoc cCONCEPT
      (by decide) (by decide)
  exact ⟨s1, h1, h3⟩

/-- C3: after one successful mutating action (tag or flag) on the focused
document — which really changes the candidate list — undo restores every
document record (in-memory lines and on-disk bytes) to exactly its
pre-action state and clears the slot, and a second consecutive undo
changes nothing at all. -/
theorem C3_undo_round_trip (s : Session) (f : Doc) (ct : List Char)
    (hf : s.files[s.current_index]? = some f)
    (hdisk : f.disk = joinLines f.lines)
    (hanchor : ∃ i, f.find_first_heading_id = some i) :
    (∃ s1 s2, s.addType ct = some s1 ∧ s1.files ≠ s.files ∧
      s1.undo = some s2 ∧ s2.files = s.files ∧
      s2.last_modification = none ∧ s2.undo = some s2) ∧
    (∃ s1 s2, s.markForReview = some s1 ∧ s1.files ≠ s.files ∧
      s1.undo = some s2 ∧ s2.files = s.files ∧
      s2.last_modification = none ∧ s2.undo = some s2) := by
  obtain ⟨i, hi⟩ := hanchor
  have hlt := lt_of_getElem?_eq_some hf
  have main : ∀ f2 : Doc,
      f2.lines.length = f.lines.length + 1 →
      f2.path = f.path → f2.content = f.content →
      (s.files.set s.current_index f2 ≠ s.files) ∧
      ∀ t : Session, t.files = s.files.set s.current_index f2 →
        t.last_modification = some (s.current_index, f.lines) →
        ∃ s2, t.undo = some s2 ∧ s2.files = s.files ∧
          s2.last_modification = none ∧ s2.undo = some s2 := by
    intro f2 hlen hpath hcontent
    constructor
    · intro heq
      have h1 : (s.files.set s.current_index f2)[s.current_index]? = some f2 :=
        List.getElem?_set_self (by simpa using hlt)
      rw [heq, hf] at h1
      have h2 : f = f2 := by injection h1
      rw [← h2] at hlen
      omega
    · intro t htf htl
      have hft2 : t.files[s.current_index]? = some f2 := by
        rw [htf]
        exact List.getElem?_set_self (by simpa using hlt)
      rw [undo_of_some t s.current_index f.lines f2 htl hft2]
      refine ⟨_, rfl, ?_, rfl, undo_of_none _ rfl⟩
      show t.files.set s.current_index
          { f2 with lines := f.lines, disk := joinLines f.lines } = s.files
      rw [htf, List.set_set]
      have hf2f : ({ f2 with lines := f.lines, disk := joinLines f.lines } : Doc) = f := by
        cases f2
        cases f
        simp_all
      rw [hf2f, set_of_getElem? _ _ _ hf]
  constructor
  · have hadd := add_content_type_of_some f ct i hi
    have hlen : (f.add_content_type ct).1.lines.length = f.lines.length + 1 := by
      rw [hadd]
      exact length_insertMid _ _ _
    obtain ⟨hne, hundo⟩ := main _ hlen (by rw [hadd]) (by rw [hadd])
    obtain ⟨s2, hu, hfs, hnm, hua⟩ := hundo
      { s with
          files := s.files.set s.current_index (f.add_content_type ct).1
          last_modification := some (s.current_index, f.lines)
          current_index := s.current_index + 1
          scroll_offset := 0 } rfl rfl
    rw [addType_eq s ct f hf, nextFile_of_lt _ (by simpa using hlt)]
    exact ⟨_, s2, rfl, hne, hu, hfs, hnm, hua⟩
  · have hadd := add_review_marker_of_some f i hi
    have hlen : f.add_review_marker.1.lines.length = f.lines.length + 1 := by
      rw [hadd]
      exact length_insertMid _ _ _
    obtain ⟨hne, hundo⟩ := main _ hlen (by rw [hadd]) (by rw [hadd])
    obtain ⟨s2, hu, hfs, hnm, hua⟩ := hundo
      { s with
          files := s.files.set s.current_index f.add_review_marker.1
          last_modification := some (s.current_index, f.lines)
          current_index := s.current_index + 1
          scroll_offset := 0 } rfl rfl
    rw [markForReview_eq s f hf, nextFile_of_lt _ (by simpa using hlt)]
    exact ⟨_, s2, rfl, hne, hu, hfs, hnm, hua⟩

/-- Witness for C3: tag-then-undo on the anchored fixture restores the
candidate list exactly. -/
theorem C3_witness :
    ∃ s1 s2, sessionB.addType cCONCEPT = some s1 ∧ s1.undo = some s2 ∧
      s2.files = sessionB.files := by
  obtain ⟨⟨s1, s2, h1, -, h3, h4, -⟩, -⟩ :=
    C3_undo_round_trip sessionB anchoredDoc cCONCEPT (by decide) (by decide)
      ⟨1, by decide⟩
  exact ⟨s1, s2, h1, h3, h4⟩

/-- C5: after mutating action A on the focused document and mutating
action B on the next document, undo restores only B's document to its
pre-B line sequence (which B really had changed); A's document keeps its
mutated lines, and those differ from its pre-A lines — the single undo
slot only holds the most recent edit. -/
theorem C5_single_slot_undo (s : Session) (fA fB : Doc) (ctA ctB : List Char)
    (hA : s.files[s.current_index]? = some fA)
    (hB : s.files[s.current_index + 1]? = some fB)
    (hAa : ∃ i, fA.find_first_heading_id = some i)
    (hBa : ∃ j, fB.find_first_heading_id = some j) :
    ∃ s1 s2 s3,
      s.addType ctA = some s1 ∧ s1.addType ctB = some s2 ∧ s2.undo = some s3 ∧
      (s2.files[s.current_index + 1]?).map (fun d2 => d2.lines) ≠ some fB.lines ∧
      (s3.files[s.current_index + 1]?).map (fun d2 => d2.lines) = some fB.lines ∧
      (s3.files[s.current_index]?).map (fun d2 => d2.lines)
        = some ((fA.add_content_type ctA).1.lines) ∧
      (fA.add_content_type ctA).1.lines ≠ fA.lines := by
  obtain ⟨i, hiA⟩ := hAa
  obtain ⟨j, hjB⟩ := hBa
  have hlt := lt_of_getElem?_eq_some hA
  have hlt1 := lt_of_getElem?_eq_some hB
  have haddA := add_content_type_of_some fA ctA i hiA
  have haddB := add_content_type_of_some fB ctB j hjB
  have hlenA : (fA.add_content_type ctA).1.lines.length = fA.lines.length + 1 := by
    rw [haddA]
    exact length_insertMid _ _ _
  have hlenB : (fB.add_content_type ctB).1.lines.length = fB.lines.length + 1 := by
    rw [haddB]
    exact length_insertMid _ _ _
  have h1 : s.addType ctA = some
      { s with
          files := s.files.set s.current_index (fA.add_content_type ctA).1
          last_modification := some (s.current_index, fA.lines)
          current_index := s.current_index + 1
          scroll_offset := 0 } := by
    rw [addType_eq s ctA fA hA, nextFile_of_lt _ (by simpa using hlt)]
  have hfB1 : (s.files.set s.current_index
      (fA.add_content_type ctA).1)[s.current_index + 1]? = some fB := by
    rw [List.getElem?_set_ne (by omega)]
    exact hB
  have h2 : ({ s with
      files := s.files.set s.current_index (fA.add_content_type ctA).1
      last_modification := some (s.current_index, fA.lines)
      current_index := s.current_index + 1
      scroll_offset := 0 } : Session).addType ctB = some
      { s with
          files := (s.files.set s.current_index (fA.add_content_type ctA).1).set
            (s.current_index + 1) (fB.add_content_type ctB).1
          last_modification := some (s.current_index + 1, fB.lines)
          current_index := s.current_index + 2
          scroll_offset := 0 } := by
    rw [addType_eq _ ctB fB hfB1, nextFile_of_lt _ (by simpa using hlt1)]
  have hfB2mem : ((s.files.set s.current_index (fA.add_content_type ctA).1).set
      (s.current_index + 1) (fB.add_content_type ctB).1)[s.current_index + 1]?
      = some (fB.add_content_type ctB).1 :=
    List.getElem?_set_self (by simpa using hlt1)
  have h3 : ({ s with
      files := (s.files.set s.current_index (fA.add_content_type ctA).1).set
        (s.current_index + 1) (fB.add_content_type ctB).1
      last_modification := some (s.current_index + 1, fB.lines)
      current_index := s.current_index + 2
      scroll_offset := 0 } : Session).undo = some
      { s with
          files := ((s.files.set s.current_index (fA.add_content_type ctA).1).set
            (s.current_index + 1) (fB.add_content_type ctB).1).set
            (s.current_index + 1)
            { (fB.add_content_type ctB).1 with
                lines := fB.lines, disk := joinLines fB.lines }
          last_modification := none
          current_index := s.current_index + 1
          scroll_offset := 0 } := by
    rw [undo_of_some _ (s.current_index + 1) fB.lines
      (fB.add_content_type ctB).1 rfl hfB2mem]
  refine ⟨_, _, _, h1, h2, h3, ?_, ?_, ?_, ?_⟩
  · show ((((s.files.set s.current_index (fA.add_content_type ctA).1).set
        (s.current_index + 1) (fB.add_content_type ctB).1))[s.current_index + 1]?).map
        (fun d2 => d2.lines) ≠ some fB.lines
    rw [hfB2mem]
    intro heq
    have heq2 : (fB.add_content_type ctB).1.lines = fB.lines := by
      simpa using heq
    have hcl := congrArg List.length heq2
    rw [hlenB] at hcl
    omega
  · show (((((s.files.set s.current_index (fA.add_content_type ctA).1).set
        (s.current_index + 1) (fB.add_content_type ctB).1).set
        (s.current_index + 1)
        { (fB.add_content_type ctB).1 with
            lines := fB.lines, disk := joinLines fB.lines }))[s.current_index + 1]?).map
        (fun d2 => d2.lines) = some fB.lines
    rw [List.getElem?_set_self (by simpa using hlt1)]
    rfl
  · show (((((s.files.set s.current_index (fA.add_content_type ctA).1).set
        (s.current_index + 1) (fB.add_content_type ctB).1).set
        (s.current_index + 1)
        { (fB.add_content_type ctB).1 with
            lines := fB.lines, disk := joinLines fB.lines }))[s.current_index]?).map
        (fun d2 => d2.lines) = some ((fA.add_content_type ctA).1.lines)
    rw [List.getElem?_set_ne (by omega), List.getElem?_set_ne (by omega),
      List.getElem?_set_self (by simpa using hlt)]
    rfl
  · intro heq
    have hcl := congrArg List.length heq
    rw [hlenA] at hcl
    omega

/-- Witness for C5 at the two-candidate session. -/
theorem C5_witness :
    ∃ s1 s2 s3, sessionBB.addType cCONCEPT = some s1 ∧
      s1.addType cPROCEDURE = some s2 ∧ s2.undo = some s3 ∧
      (s3.files[1]?).map (fun d2 => d2.lines) = some anchoredDoc2.lines := by
  obtain ⟨s1, s2, s3, h1, h2, h3, -, h5, -⟩ :=
    C5_single_slot_undo sessionBB anchoredDoc anchoredDoc2 cCONCEPT cPROCEDURE
      (by decide) (by decide) ⟨1, by decide⟩ ⟨1, by decide⟩
  exact ⟨s1, s2, s3, h1, h2, h3, h5⟩

/-- C9: neither insertion checks for an existing marker: on a document
with an anchor both a second `add_content_type` and an
`add_review_marker` after a first tag succeed (the marker line is itself
never an anchor, so the anchor is still found), and tagging twice leaves
two copies of the marker line, persisted to disk; at the session level,
tag / retreat / tag on the same document produces a file with two marker
lines. -/
theorem C9_double_insertion (s : Session) (f : Doc) (ct : List Char) (i : Nat)
    (hf : s.files[s.current_index]? = some f)
    (hfind : f.find_first_heading_id = some i) :
    ((f.add_content_type ct).2 = true ∧
      ((f.add_content_type ct).1.add_content_type ct).2 = true ∧
      ((f.add_content_type ct).1.add_review_marker).2 = true ∧
      ((f.add_content_type ct).1.add_content_type ct).1.lines.count
          (contentTypeLine ct)
        = f.lines.count (contentTypeLine ct) + 2 ∧
      ((f.add_content_type ct).1.add_content_type ct).1.disk
        = joinLines (((f.add_content_type ct).1.add_content_type ct).1.lines)) ∧
    (∃ s1 s3, s.addType ct = some s1 ∧ s1.prevFile.addType ct = some s3 ∧
      (s3.files[s.current_index]?).map
          (fun d2 => d2.lines.count (contentTypeLine ct))
        = some (f.lines.count (contentTypeLine ct) + 2)) := by
  have hlt := lt_of_getElem?_eq_some hf
  have hadd1 := add_content_type_of_some f ct i hfind
  have hfind1 : (f.add_content_type ct).1.find_first_heading_id = some (i + 1) := by
    rw [hadd1]
    show findIdAux 0 (f.lines.take i ++ [contentTypeLine ct] ++ f.lines.drop i)
      = some (i + 1)
    exact findIdAux_zero_insert f.lines (contentTypeLine ct) i hfind
      (anchorLine_contentTypeLine ct)
  have hsnd := add_content_type_of_some (f.add_content_type ct).1 ct (i + 1) hfind1
  have hrev2 := add_review_marker_of_some (f.add_content_type ct).1 (i + 1) hfind1
  have hl1 : (f.add_content_type ct).1.lines
      = f.lines.take i ++ [contentTypeLine ct] ++ f.lines.drop i := by
    rw [hadd1]
  have hl2 : ((f.add_content_type ct).1.add_content_type ct).1.lines
      = ((f.add_content_type ct).1.lines).take (i + 1) ++ [contentTypeLine ct]
        ++ ((f.add_content_type ct).1.lines).drop (i + 1) := by
    rw [hsnd]
  have hcount : ((f.add_content_type ct).1.add_content_type ct).1.lines.count
      (contentTypeLine ct) = f.lines.count (contentTypeLine ct) + 2 := by
    rw [hl2, count_insertMid, hl1, count_insertMid]
  refine ⟨⟨by rw [hadd1], by rw [hsnd], by rw [hrev2], hcount, by rw [hsnd]⟩, ?_⟩
  have h1 : s.addType ct = some
      { s with
          files := s.files.set s.current_index (f.add_content_type ct).1
          last_modification := some (s.current_index, f.lines)
          current_index := s.current_index + 1
          scroll_offset := 0 } := by
    rw [addType_eq s ct f hf, nextFile_of_lt _ (by simpa using hlt)]
  have h2 : ({ s with
      files := s.files.set s.current_index (f.add_content_type ct).1
      last_modification := some (s.current_index, f.lines)
      current_index := s.current_index + 1
      scroll_offset := 0 } : Session).prevFile = { s with
        files := s.files.set s.current_index (f.add_content_type ct).1
        last_modification := some (s.current_index, f.lines)
        current_index := s.current_index
        scroll_offset := 0 } := by
    rw [prevFile_of_pos _ (by simp)]
    rfl
  have hmem1 : (s.files.set s.current_index
      (f.add_content_type ct).1)[s.current_index]? = some (f.add_content_type ct).1 :=
    List.getElem?_set_self (by simpa using hlt)
  have h3 : ({ s with
      files := s.files.set s.current_index (f.add_content_type ct).1
      last_modification := some (s.current_index, f.lines)
      current_index := s.current_index
      scroll_offset := 0 } : Session).addType ct = some
      { s with
          files := (s.files.set s.current_index (f.add_content_type ct).1).set
            s.current_index ((f.add_content_type ct).1.add_content_type ct).1
          last_modification := some (s.current_index, (f.add_content_type ct).1.lines)
          current_index := s.current_index + 1
          scroll_offset := 0 } := by
    rw [addType_eq _ ct (f.add_content_type ct).1 hmem1,
      nextFile_of_lt _ (by simpa using hlt)]
  refine ⟨_, _, h1, by rw [h2]; exact h3, ?_⟩
  show ((((s.files.set s.current_index (f.add_content_type ct).1).set
      s.current_index ((f.add_content_type ct).1.add_content_type ct).1))[s.current_index]?).map
      (fun d2 => d2.lines.count (contentTypeLine ct))
    = some (f.lines.count (contentTypeLine ct) + 2)
  rw [List.set_set, List.getElem?_set_self (by simpa using hlt)]
  simpa using hcount

/-- Witness for C9: double-tagging the anchored fixture succeeds and
leaves the marker line twice. -/
theorem C9_witness :
    ((anchoredDoc.add_content_type cCONCEPT).1.add_content_type cCONCEPT).2 = true ∧
    ((anchoredDoc.add_content_type cCONCEPT).1.add_content_type cCONCEPT).1.lines.count
        (contentTypeLine cCONCEPT)
      = anchoredDoc.lines.count (contentTypeLine cCONCEPT) + 2 := by
  obtain ⟨⟨-, h2, -, h4, -⟩, -⟩ :=
    C9_double_insertion sessionB anchoredDoc cCONCEPT 1 (by decide) (by decide)
  exact ⟨h2, h4⟩

end ModuleTagger
